import Mathlib

/-!
Verification development for the SOUDAI data-scraping repository.

The repository's core (spec sections 3-4) is the checkpointed
timeline-enrichment pipeline (Checkpoint Ledger, Timeline Fetcher,
Enrichment Orchestrator) and the Legal Reference Parser.  Only the
exploration notebook is present under the sources, so the pipeline and
the parser are modelled from the specification text; the notebook
helpers (`flatten`, `load_all_decisions`, `extract_unique_refs`) are
translated directly from the notebook code.
-/

namespace SOUDAI

/-- Timeline event kinds (spec section 3: initiation, hearing, resolution). -/
inductive EventKind where
  | initiation
  | hearing
  | resolution
deriving DecidableEq, Repr

/-- Modelled from the spec: TimelineEvent (section 3) — an event kind and a
nullable event date (dates abstracted as natural numbers). -/
structure TimelineEvent where
  kind : EventKind
  date : Option Nat
deriving DecidableEq, Repr

/-- Checkpoint status (spec section 3): pending, done, failed-exhausted. -/
inductive Status where
  | pending
  | done
  | failedExhausted
deriving DecidableEq, Repr

/-- Modelled from the spec: CheckpointEntry (section 3) — status, attempt
count, last error summary (nullable); the checkpointed enrichment payload is
kept alongside so that a resumed run can emit rows for already-done cases. -/
structure CheckpointEntry where
  status : Status
  attempts : Nat
  lastError : Option String
  timeline : Option (List TimelineEvent)
deriving DecidableEq, Repr

/-- Case identifiers, abstracted as natural numbers. -/
abbrev CaseId := Nat

/-- Modelled from the spec: the Checkpoint Ledger's durable storage
(section 4.1, `load() -> mapping[case_id -> CheckpointEntry]`): a mapping
from case id to an optional checkpoint entry. -/
abbrev Ledger := CaseId → Option CheckpointEntry

/-- The empty ledger: no case has an entry. -/
def emptyLedger : Ledger := fun _ => none

/-- Modelled from the spec: `Ledger.record(case_id, outcome)` (section 4.1) —
idempotent upsert of the entry for one case id. -/
def recordEntry (st : Ledger) (id : CaseId) (e : CheckpointEntry) : Ledger :=
  fun j => if j = id then some e else st j

/-- Status of a case id in the ledger; no entry for an id implies it is
pending (spec section 4.1). -/
def statusOf (st : Ledger) (id : CaseId) : Status :=
  match st id with
  | none => Status.pending
  | some e => e.status

/-- Attempt count recorded for a case id; no entry means zero attempts. -/
def attemptsOf (st : Ledger) (id : CaseId) : Nat :=
  match st id with
  | none => 0
  | some e => e.attempts

/-- Modelled from the spec: `pending_cases(all_ids)` (section 4.1) — all_ids
minus every id whose entry has status done or failed-exhausted. -/
def pending_cases (st : Ledger) (all_ids : List CaseId) : List CaseId :=
  all_ids.filter fun id =>
    decide (statusOf st id ≠ Status.done ∧ statusOf st id ≠ Status.failedExhausted)

/-- Modelled from the spec: the Timeline Fetcher's result (section 4.2) —
a timeline event list on success, or a FetchError of transient or permanent
kind with a detail string. -/
inductive FetchResult where
  | success (events : List TimelineEvent)
  | transientErr (detail : String)
  | permanentErr (detail : String)
deriving DecidableEq, Repr

/-- Modelled from the spec: the Timeline Fetcher (section 4.2) abstracted as
a function from case id to the outcome of one `fetch` call. -/
abbrev Fetcher := CaseId → FetchResult

/-- Modelled from the spec: CaseRecord (section 3) — immutable identifier,
opaque scraped metadata, and the list of raw citation strings. -/
structure CaseRecord where
  id : CaseId
  meta : String
  refs : List String
deriving DecidableEq, Repr

/-- One row of the output artifact (spec section 6): all original metadata
plus nullable timeline fields and a status marker. -/
structure OutputRow where
  id : CaseId
  meta : String
  refs : List String
  timeline : Option (List TimelineEvent)
  statusMark : Status
deriving DecidableEq, Repr

/-- Attempt count held in an optional checkpoint entry. -/
def attemptsOfEntry : Option CheckpointEntry → Nat
  | none => 0
  | some e => e.attempts

/-- Modelled from the spec: the checkpoint entry written for one attempted
case (section 4.3, steps 2b-2d): on success record done with the fetched
timeline; on a transient error increment the attempt count and either leave
the case pending (below the retry budget) or record failed-exhausted; on a
permanent error record failed-exhausted immediately. -/
def stepEntry (budget : Nat) (r : FetchResult) (cur : Option CheckpointEntry) :
    CheckpointEntry :=
  let a := attemptsOfEntry cur + 1
  match r with
  | FetchResult.success evs => ⟨Status.done, a, none, some evs⟩
  | FetchResult.transientErr d =>
      if a < budget then ⟨Status.pending, a, some d, none⟩
      else ⟨Status.failedExhausted, a, some d, none⟩
  | FetchResult.permanentErr d => ⟨Status.failedExhausted, a, some d, none⟩

/-- Modelled from the spec: processing of one pending case by the
Orchestrator (section 4.3, step 2): call the Fetcher and record the outcome
in the Ledger. -/
def processCase (budget : Nat) (f : Fetcher) (st : Ledger) (id : CaseId) : Ledger :=
  recordEntry st id (stepEntry budget (f id) (st id))

/-- Modelled from the spec: one pass of the Orchestrator over a list of
pending case ids, in the stable input order (section 4.3, step 2). -/
def runPass (budget : Nat) (f : Fetcher) (st : Ledger) (ids : List CaseId) : Ledger :=
  ids.foldl (processCase budget f) st

/-- Modelled from the spec: the output row for one input case (section 4.3,
step 3): original metadata merged with the (possibly absent) timeline fields
and the status marker; failed-exhausted cases get null timeline fields. -/
def outputRow (st : Ledger) (c : CaseRecord) : OutputRow :=
  match st c.id with
  | some e => ⟨c.id, c.meta, c.refs, e.timeline, e.status⟩
  | none => ⟨c.id, c.meta, c.refs, none, Status.pending⟩

/-- Modelled from the spec: the Enrichment Orchestrator's `run`
(section 4.3): compute the pending cases from the Ledger, process them in
stable input order, then emit one output row per input case together with
the updated Ledger storage. -/
def run (budget : Nat) (f : Fetcher) (cases : List CaseRecord) (st : Ledger) :
    List OutputRow × Ledger :=
  let st2 := runPass budget f st (pending_cases st (cases.map CaseRecord.id))
  (cases.map (outputRow st2), st2)

/-- One invocation of the Orchestrator: its retry budget, Fetcher and case
list. -/
structure RunStep where
  budget : Nat
  fetch : Fetcher
  cases : List CaseRecord

/-- A sequence of Orchestrator invocations over the same Ledger storage. -/
def runSeq (steps : List RunStep) (st : Ledger) : Ledger :=
  steps.foldl (fun s stp => (run stp.budget stp.fetch stp.cases s).2) st

/-- `n` repeated invocations of the Orchestrator with a fixed budget,
Fetcher and case list over the same Ledger storage. -/
def runTimes : Nat → Nat → Fetcher → List CaseRecord → Ledger → Ledger
  | 0, _, _, _, st => st
  | n + 1, b, f, cs, st => runTimes n b f cs (run b f cs st).2

/-!
Legal Reference Parser (spec section 4.4), modelled from the spec: the
module `preprocessing/law_reference_parser.py` is imported by the notebook
but is not among the sources.
-/

/-- Modelled from the spec: ParsedReference (section 3) — every structured
field independently nullable, plus the original raw text. -/
structure ParsedReference where
  actNumber : Option Nat
  actYear : Option Nat
  actName : Option String
  section_ : Option Nat
  paragraph : Option Nat
  subPoint : Option Char
  isRange : Bool
  raw : String
deriving DecidableEq, Repr

/-- A ParsedReference with every structured field null and the original raw
text preserved (spec sections 3 and 4.4, lenient degradation). -/
def nullRef (raw : String) : ParsedReference :=
  ⟨none, none, none, none, none, none, false, raw⟩

/-- Citation tokens recognized by the parser's pattern scan (spec
section 4.4): an act-with-number-and-year, or a section marker. -/
inductive CiteToken where
  | actTok (number year : Nat)
  | sectionTok (number : Nat)
deriving DecidableEq, Repr

/-- Numeric value of a decimal digit character. -/
def digitVal (c : Char) : Nat := c.toNat - 48

/-- Reads a maximal run of decimal digits, returning the accumulated value
and the remaining characters. -/
def readNat : List Char → Nat → Nat × List Char
  | [], acc => (acc, [])
  | c :: cs, acc =>
      if c.isDigit then readNat cs (acc * 10 + digitVal c) else (acc, c :: cs)

/-- Modelled from the spec: the tokenizer's fuelled scan (section 4.4) —
greedy left-to-right recognition of `number/year` act patterns and
`§ number` section markers; unrecognized characters are skipped. -/
def tokenizeGo : Nat → List Char → List CiteToken
  | 0, _ => []
  | _ + 1, [] => []
  | fuel + 1, c :: cs =>
      if c.isDigit then
        match readNat (c :: cs) 0 with
        | (n, '/' :: r2) =>
            match r2 with
            | d :: _ =>
                if d.isDigit then
                  match readNat r2 0 with
                  | (y, rest2) => CiteToken.actTok n y :: tokenizeGo fuel rest2
                else tokenizeGo fuel r2
            | [] => []
        | (_, rest) => tokenizeGo fuel rest
      else if c = '§' then
        match cs.dropWhile (fun a => a = ' ') with
        | d :: _ =>
            if d.isDigit then
              match readNat (cs.dropWhile (fun a => a = ' ')) 0 with
              | (s, rest) => CiteToken.sectionTok s :: tokenizeGo fuel rest
            else tokenizeGo fuel cs
        | [] => []
      else tokenizeGo fuel cs

/-- Tokenization of a raw citation string. -/
def tokenize (cs : List Char) : List CiteToken := tokenizeGo cs.length cs

/-- Modelled from the spec: emission of structured references from the token
stream (section 4.4) — the most recently recognized act identity is carried
forward to subsequent bare section references (the implicit antecedent
rule); an act immediately followed by a section marker forms one citation
with that section rather than a standalone act reference. -/
def emitRefs (raw : String) : Option (Nat × Nat) → List CiteToken → List ParsedReference
  | _, [] => []
  | _, CiteToken.actTok n y :: CiteToken.sectionTok s :: rest =>
      ⟨some n, some y, none, some s, none, none, false, raw⟩ ::
        emitRefs raw (some (n, y)) rest
  | _, [CiteToken.actTok n y] =>
      [⟨some n, some y, none, none, none, none, false, raw⟩]
  | _, CiteToken.actTok n y :: t :: rest =>
      ⟨some n, some y, none, none, none, none, false, raw⟩ ::
        emitRefs raw (some (n, y)) (t :: rest)
  | cur, CiteToken.sectionTok s :: rest =>
      ⟨cur.map Prod.fst, cur.map Prod.snd, none, some s, none, none, false, raw⟩ ::
        emitRefs raw cur rest

/-- Modelled from the spec: `parse(raw) -> ParsedReference list`
(section 4.4) — tokenize, emit structured references left-to-right, and on a
string matching none of the patterns return a single all-null
ParsedReference retaining the original text. -/
def parse (raw : String) : List ParsedReference :=
  match emitRefs raw none (tokenize raw.toList) with
  | [] => [nullRef raw]
  | r :: rs => r :: rs

/-!
Notebook helpers, translated from `notebooks/data_exploration.ipynb`.
-/

/-- From the notebook: `flatten(xss)` — the list comprehension
`[x for xs in xss for x in xs]`. -/
def flatten {α : Type _} : List (List α) → List α
  | [] => []
  | xs :: xss => xs ++ flatten xss

/-- Outcome of opening and JSON-parsing one `page*.json` file: either the
raised exception's message, or the parsed top-level JSON object, modelled as
an association list from keys to record lists (records abstracted as
naturals). -/
inductive FileLoad where
  | loadFail (msg : String)
  | loadOk (doc : List (String × List Nat))
deriving DecidableEq, Repr

/-- From the notebook: `data.get("items", [])` — the record list under the
"items" key, or the empty list when the key is absent. -/
def itemsOf (doc : List (String × List Nat)) : List Nat :=
  match doc.find? (fun p => p.1 = "items") with
  | some p => p.2
  | none => []

/-- Records contributed by one file: a file that failed to open or parse
contributes nothing (the notebook catches the exception and prints a
message); a parsed file contributes its "items" records. -/
def fileRecords : FileLoad → List Nat
  | FileLoad.loadFail _ => []
  | FileLoad.loadOk doc => itemsOf doc

/-- From the notebook: `load_all_decisions` — iterate over the page files,
appending every record of each successfully parsed file's "items" array;
the resulting record list is the frame's row list. -/
def load_all_decisions (files : List FileLoad) : List Nat :=
  files.foldl (fun records f => records ++ fileRecords f) []

/-- One row of the decisions frame, restricted to the column the reference
extraction reads. -/
structure DecisionRow where
  zminenaUstanoveni : List String
deriving DecidableEq, Repr

/-- From the notebook: `extract_unique_refs(df)` — the set of raw references
occurring in the `zminenaUstanoveni` column, via `flatten` then `set`. -/
def extract_unique_refs (df : List DecisionRow) : Finset String :=
  (flatten (df.map DecisionRow.zminenaUstanoveni)).toFinset

/-!
Helper lemmas about the ledger and the orchestrator passes.
-/

theorem recordEntry_ne {j id : CaseId} (h : j ≠ id) (st : Ledger) (e : CheckpointEntry) :
    recordEntry st id e j = st j := by
  simp [recordEntry, h]

theorem processCase_ne {j id : CaseId} (h : j ≠ id) (b : Nat) (f : Fetcher) (st : Ledger) :
    processCase b f st id j = st j :=
  recordEntry_ne h st _

theorem processCase_self (b : Nat) (f : Fetcher) (st : Ledger) (id : CaseId) :
    processCase b f st id id = some (stepEntry b (f id) (st id)) := by
  simp [processCase, recordEntry]

theorem runPass_cons (b : Nat) (f : Fetcher) (st : Ledger) (i : CaseId) (rest : List CaseId) :
    runPass b f st (i :: rest) = runPass b f (processCase b f st i) rest := rfl

theorem runPass_not_mem {j : CaseId} {ids : List CaseId} (h : j ∉ ids)
    (b : Nat) (f : Fetcher) (st : Ledger) :
    runPass b f st ids j = st j := by
  induction ids generalizing st with
  | nil => rfl
  | cons i rest ih =>
      have hji : j ≠ i := fun hh => h (hh ▸ List.mem_cons_self i rest)
      have hrest : j ∉ rest := fun hh => h (List.mem_cons_of_mem _ hh)
      rw [runPass_cons, ih hrest, processCase_ne hji]

theorem runPass_mem {j : CaseId} {ids : List CaseId} (hnd : ids.Nodup) (hmem : j ∈ ids)
    (b : Nat) (f : Fetcher) (st : Ledger) :
    runPass b f st ids j = some (stepEntry b (f j) (st j)) := by
  induction ids generalizing st with
  | nil => cases hmem
  | cons i rest ih =>
      by_cases hji : j = i
      · subst hji
        have hrest : j ∉ rest := (List.nodup_cons.mp hnd).1
        rw [runPass_cons, runPass_not_mem hrest, processCase_self]
      · have hmem' : j ∈ rest := (List.mem_cons.mp hmem).resolve_left hji
        have hnd' : rest.Nodup := (List.nodup_cons.mp hnd).2
        rw [runPass_cons, ih hnd' hmem', processCase_ne hji]

theorem status_cases (s : Status) :
    s = Status.pending ∨ s = Status.done ∨ s = Status.failedExhausted := by
  cases s <;> simp

theorem mem_pending_cases {st : Ledger} {ids : List CaseId} {j : CaseId} :
    j ∈ pending_cases st ids ↔
      j ∈ ids ∧ statusOf st j ≠ Status.done ∧ statusOf st j ≠ Status.failedExhausted := by
  simp [pending_cases, List.mem_filter]

theorem mem_pending_iff_status {st : Ledger} {ids : List CaseId} {j : CaseId} :
    j ∈ pending_cases st ids ↔ j ∈ ids ∧ statusOf st j = Status.pending := by
  rw [mem_pending_cases]
  refine and_congr_right fun _ => ?_
  rcases status_cases (statusOf st j) with h | h | h <;> simp [h]

theorem not_mem_pending_of_terminal {st : Ledger} {ids : List CaseId} {j : CaseId}
    (hs : statusOf st j ≠ Status.pending) :
    j ∉ pending_cases st ids :=
  fun h => hs (mem_pending_iff_status.mp h).2

theorem pending_cases_nodup {st : Ledger} {ids : List CaseId} (hnd : ids.Nodup) :
    (pending_cases st ids).Nodup :=
  hnd.filter _

theorem statusOf_congr {st st' : Ledger} {j : CaseId} (h : st' j = st j) :
    statusOf st' j = statusOf st j := by
  unfold statusOf
  rw [h]

theorem attemptsOf_eq (st : Ledger) (id : CaseId) :
    attemptsOf st id = attemptsOfEntry (st id) := by
  unfold attemptsOf attemptsOfEntry
  cases st id <;> rfl

theorem run_snd (b : Nat) (f : Fetcher) (cases : List CaseRecord) (st : Ledger) :
    (run b f cases st).2 = runPass b f st (pending_cases st (cases.map CaseRecord.id)) := rfl

theorem run_fst (b : Nat) (f : Fetcher) (cases : List CaseRecord) (st : Ledger) :
    (run b f cases st).1 = cases.map (outputRow (run b f cases st).2) := rfl

theorem run_ledger_of_terminal {b : Nat} {f : Fetcher} {cases : List CaseRecord} {st : Ledger}
    {id : CaseId} (h : statusOf st id ≠ Status.pending) :
    (run b f cases st).2 id = st id := by
  rw [run_snd]
  exact runPass_not_mem (not_mem_pending_of_terminal h) _ _ _

theorem outputRow_id (st : Ledger) (c : CaseRecord) : (outputRow st c).id = c.id := by
  cases hst : st c.id <;> simp [outputRow, hst]

theorem run_output_ids (b : Nat) (f : Fetcher) (cases : List CaseRecord) (st : Ledger) :
    ((run b f cases st).1).map OutputRow.id = cases.map CaseRecord.id := by
  rw [run_fst, List.map_map]
  exact List.map_congr_left fun c _ => outputRow_id _ c

/-!
Claim theorems for the Checkpoint Ledger and the Enrichment Orchestrator.
-/

/-- C7: `pending_cases(all_ids)` equals `all_ids` minus every id whose entry
has status done or failed-exhausted, and an id with no entry at all is
treated as pending (and therefore included when it is in `all_ids`). -/
theorem pending_cases_spec (st : Ledger) (ids : List CaseId) (j : CaseId) :
    (j ∈ pending_cases st ids ↔
        j ∈ ids ∧ ¬(statusOf st j = Status.done ∨ statusOf st j = Status.failedExhausted)) ∧
      (st j = none → statusOf st j = Status.pending) := by
  constructor
  · rw [mem_pending_cases, not_or]
  · intro h
    simp [statusOf, h]

/-- Witness for C7 at a concrete ledger: id 0 has no entry and is pending. -/
theorem pending_cases_spec_witness :
    statusOf (recordEntry emptyLedger 1 ⟨Status.done, 1, none, none⟩) 0 = Status.pending :=
  (pending_cases_spec (recordEntry emptyLedger 1 ⟨Status.done, 1, none, none⟩) [0, 1] 0).2 rfl

/-- C8: for a fixed input case order and fixed Fetcher responses, two
executions of the Orchestrator's `run` produce identical output tables, and
the rows follow the stable input order (one row per input case, in input
order). -/
theorem run_deterministic (b : Nat) (f : Fetcher) (cases : List CaseRecord) (st : Ledger) :
    (run b f cases st).1 = (run b f cases st).1 ∧
      ((run b f cases st).1).map OutputRow.id = cases.map CaseRecord.id :=
  ⟨rfl, run_output_ids b f cases st⟩

/-- C2: every case id present in the input appears exactly once as a row of
the output table, regardless of the Fetcher's outcomes. -/
theorem no_data_loss (b : Nat) (f : Fetcher) (cases : List CaseRecord) (st : Ledger)
    (hnd : (cases.map CaseRecord.id).Nodup) :
    ∀ cid ∈ cases.map CaseRecord.id,
      (((run b f cases st).1).map OutputRow.id).count cid = 1 := by
  intro cid hmem
  rw [run_output_ids]
  exact List.count_eq_one_of_mem hnd hmem

/-- Witness for C2: a two-case input with a failing Fetcher still yields
each id exactly once. -/
theorem no_data_loss_witness :
    (([⟨0, "a", []⟩, ⟨1, "b", []⟩] : List CaseRecord).map CaseRecord.id).Nodup ∧
      (((run 1 (fun _ => FetchResult.transientErr "t")
            [⟨0, "a", []⟩, ⟨1, "b", []⟩] emptyLedger).1).map OutputRow.id).count 1 = 1 :=
  ⟨by decide,
    no_data_loss 1 (fun _ => FetchResult.transientErr "t")
      [⟨0, "a", []⟩, ⟨1, "b", []⟩] emptyLedger (by decide) 1 (by decide)⟩

/-- C3: once a case's checkpoint status is done or failed-exhausted, no
later Orchestrator invocation changes its ledger entry — in particular its
status never returns to pending. -/
theorem monotonic_status (steps : List RunStep) (st : Ledger) (id : CaseId)
    (h : statusOf st id = Status.done ∨ statusOf st id = Status.failedExhausted) :
    runSeq steps st id = st id ∧ statusOf (runSeq steps st) id = statusOf st id := by
  induction steps generalizing st with
  | nil => exact ⟨rfl, rfl⟩
  | cons stp rest ih =>
      have hne : statusOf st id ≠ Status.pending := by
        rcases h with h | h <;> simp [h]
      have h1 : (run stp.budget stp.fetch stp.cases st).2 id = st id :=
        run_ledger_of_terminal hne
      have hstat := statusOf_congr h1
      obtain ⟨e1, e2⟩ := ih ((run stp.budget stp.fetch stp.cases st).2) (by rw [hstat]; exact h)
      refine ⟨?_, ?_⟩
      · show runSeq rest ((run stp.budget stp.fetch stp.cases st).2) id = st id
        rw [e1, h1]
      · show statusOf (runSeq rest ((run stp.budget stp.fetch stp.cases st).2)) id = statusOf st id
        rw [e2, hstat]

/-- Witness for C3: a done case stays done across a later run that targets
it with an always-failing Fetcher. -/
theorem monotonic_status_witness :
    statusOf
        (runSeq [⟨1, fun _ => FetchResult.transientErr "t", [⟨5, "m", []⟩]⟩]
          (recordEntry emptyLedger 5 ⟨Status.done, 1, none, some []⟩)) 5 =
      Status.done :=
  ((monotonic_status [⟨1, fun _ => FetchResult.transientErr "t", [⟨5, "m", []⟩]⟩]
      (recordEntry emptyLedger 5 ⟨Status.done, 1, none, some []⟩) 5 (Or.inl rfl)).2).trans rfl

/-- C1 counterexample: with retry budget 1, a first run whose Fetcher fails
every call exhausts the only case, so the second run (with a succeeding
Fetcher, over the same Ledger storage) emits a failed-exhausted row while a
single uninterrupted run with the succeeding Fetcher emits a done row. -/
theorem idempotence_counterexample :
    (run 1 (fun _ => FetchResult.success []) [⟨0, "m", []⟩]
        (run 1 (fun _ => FetchResult.transientErr "t") [⟨0, "m", []⟩] emptyLedger).2).1 ≠
      (run 1 (fun _ => FetchResult.success []) [⟨0, "m", []⟩] emptyLedger).1 := by
  decide

/-- C1 (amended): for input cases with distinct ids, and a Ledger state in
which every pending input case can absorb one more transient failure
without exhausting the retry budget, running `run` with an all-failing
Fetcher and then again with an always-succeeding Fetcher over the same
Ledger storage produces the same output table as a single uninterrupted run
with the succeeding Fetcher; moreover the second run re-attempts exactly
the ids whose ledger status was still pending. -/
theorem idempotence_resumed (b : Nat) (f1 f2 : Fetcher) (g : CaseId → List TimelineEvent)
    (d : CaseId → String) (cases : List CaseRecord) (st : Ledger)
    (hnd : (cases.map CaseRecord.id).Nodup)
    (hf1 : ∀ id, f1 id = FetchResult.transientErr (d id))
    (hf2 : ∀ id, f2 id = FetchResult.success (g id))
    (hbudget : ∀ id ∈ cases.map CaseRecord.id,
        statusOf st id = Status.pending → attemptsOf st id + 1 < b) :
    (run b f2 cases (run b f1 cases st).2).1 = (run b f2 cases st).1 ∧
      ∀ j, j ∈ pending_cases ((run b f1 cases st).2) (cases.map CaseRecord.id) ↔
        j ∈ cases.map CaseRecord.id ∧
          statusOf ((run b f1 cases st).2) j = Status.pending := by
  refine ⟨?_, fun j => mem_pending_iff_status⟩
  rw [run_fst, run_fst]
  apply List.map_congr_left
  intro c hc
  have hjid : c.id ∈ cases.map CaseRecord.id := List.mem_map_of_mem _ hc
  have hnd1 : (pending_cases st (cases.map CaseRecord.id)).Nodup := pending_cases_nodup hnd
  rcases status_cases (statusOf st c.id) with hs | hs | hs
  · -- the case was pending: first run fails it once, second run succeeds
    have hlt : attemptsOfEntry (st c.id) + 1 < b := by
      rw [← attemptsOf_eq]
      exact hbudget c.id hjid hs
    have hmem1 : c.id ∈ pending_cases st (cases.map CaseRecord.id) :=
      mem_pending_iff_status.mpr ⟨hjid, hs⟩
    have h1 : (run b f1 cases st).2 c.id = some (stepEntry b (f1 c.id) (st c.id)) := by
      rw [run_snd]
      exact runPass_mem hnd1 hmem1 _ _ _
    rw [hf1 c.id] at h1
    have h1' : (run b f1 cases st).2 c.id =
        some ⟨Status.pending, attemptsOfEntry (st c.id) + 1, some (d c.id), none⟩ := by
      rw [h1]
      simp [stepEntry, hlt]
    have hs1 : statusOf ((run b f1 cases st).2) c.id = Status.pending := by
      simp [statusOf, h1']
    have hmem2 : c.id ∈ pending_cases ((run b f1 cases st).2) (cases.map CaseRecord.id) :=
      mem_pending_iff_status.mpr ⟨hjid, hs1⟩
    have h2 : (run b f2 cases (run b f1 cases st).2).2 c.id =
        some (stepEntry b (f2 c.id) ((run b f1 cases st).2 c.id)) := by
      rw [run_snd]
      exact runPass_mem (pending_cases_nodup hnd) hmem2 _ _ _
    rw [hf2 c.id, h1'] at h2
    have h3 : (run b f2 cases st).2 c.id = some (stepEntry b (f2 c.id) (st c.id)) := by
      rw [run_snd]
      exact runPass_mem hnd1 hmem1 _ _ _
    rw [hf2 c.id] at h3
    simp [outputRow, h2, h3, stepEntry]
  · -- the case was already done: untouched by every run
    have hne : statusOf st c.id ≠ Status.pending := by simp [hs]
    have h1 : (run b f1 cases st).2 c.id = st c.id := run_ledger_of_terminal hne
    have hs1 : statusOf ((run b f1 cases st).2) c.id ≠ Status.pending := by
      rw [statusOf_congr h1]
      exact hne
    have h2 : (run b f2 cases (run b f1 cases st).2).2 c.id = st c.id :=
      (run_ledger_of_terminal hs1).trans h1
    have h3 : (run b f2 cases st).2 c.id = st c.id := run_ledger_of_terminal hne
    simp [outputRow, h2, h3]
  · -- the case was already failed-exhausted: untouched by every run
    have hne : statusOf st c.id ≠ Status.pending := by simp [hs]
    have h1 : (run b f1 cases st).2 c.id = st c.id := run_ledger_of_terminal hne
    have hs1 : statusOf ((run b f1 cases st).2) c.id ≠ Status.pending := by
      rw [statusOf_congr h1]
      exact hne
    have h2 : (run b f2 cases (run b f1 cases st).2).2 c.id = st c.id :=
      (run_ledger_of_terminal hs1).trans h1
    have h3 : (run b f2 cases st).2 c.id = st c.id := run_ledger_of_terminal hne
    simp [outputRow, h2, h3]

/-- Witness for the amended C1: budget 2, one fresh case, fail-then-succeed
equals a single successful run. -/
theorem idempotence_resumed_witness :
    (run 2 (fun _ => FetchResult.success [⟨EventKind.hearing, some 7⟩]) [⟨0, "m", []⟩]
        (run 2 (fun _ => FetchResult.transientErr "t") [⟨0, "m", []⟩] emptyLedger).2).1 =
      (run 2 (fun _ => FetchResult.success [⟨EventKind.hearing, some 7⟩]) [⟨0, "m", []⟩]
        emptyLedger).1 :=
  (idempotence_resumed 2 (fun _ => FetchResult.transientErr "t")
      (fun _ => FetchResult.success [⟨EventKind.hearing, some 7⟩])
      (fun _ => [⟨EventKind.hearing, some 7⟩]) (fun _ => "t") [⟨0, "m", []⟩] emptyLedger
      (by decide) (fun _ => rfl) (fun _ => rfl)
      (fun id _ _ => by simp [attemptsOf, emptyLedger])).1

/-- `runTimes` applied to a post-run state agrees with `run` applied to a
`runTimes` state: repeated invocation is iteration of one invocation. -/
theorem runTimes_comm (n b : Nat) (f : Fetcher) (cs : List CaseRecord) (st : Ledger) :
    runTimes n b f cs (run b f cs st).2 = (run b f cs (runTimes n b f cs st)).2 := by
  induction n generalizing st with
  | zero => rfl
  | succ n ih =>
      show runTimes n b f cs (run b f cs (run b f cs st).2).2 =
        (run b f cs (runTimes n b f cs (run b f cs st).2)).2
      rw [ih]

/-- With an always-transient Fetcher, after `k ≤ budget` invocations a case
is pending with exactly `k` recorded attempts while below the budget, and
failed-exhausted with exactly `budget` attempts at the budget. -/
theorem retry_invariant (b : Nat) (f : Fetcher) (cs : List CaseRecord) (id : CaseId)
    (hb : 1 ≤ b) (hf : ∀ j, ∃ s, f j = FetchResult.transientErr s)
    (hnd : (cs.map CaseRecord.id).Nodup) (hmem : id ∈ cs.map CaseRecord.id) :
    ∀ k, k ≤ b →
      statusOf (runTimes k b f cs emptyLedger) id =
          (if k < b then Status.pending else Status.failedExhausted) ∧
        attemptsOf (runTimes k b f cs emptyLedger) id = k := by
  intro k
  induction k with
  | zero =>
      intro _
      simp [runTimes, hb, statusOf, attemptsOf, emptyLedger, Nat.lt_of_lt_of_le Nat.zero_lt_one hb]
  | succ k ih =>
      intro hk
      have hklt : k < b := Nat.lt_of_succ_le hk
      obtain ⟨hstat, hatt⟩ := ih (Nat.le_of_lt hklt)
      rw [if_pos hklt] at hstat
      have hrt : runTimes (k + 1) b f cs emptyLedger =
          (run b f cs (runTimes k b f cs emptyLedger)).2 := by
        show runTimes k b f cs (run b f cs emptyLedger).2 = _
        exact runTimes_comm k b f cs emptyLedger
      obtain ⟨s, hfs⟩ := hf id
      have hmemp : id ∈ pending_cases (runTimes k b f cs emptyLedger) (cs.map CaseRecord.id) :=
        mem_pending_iff_status.mpr ⟨hmem, hstat⟩
      have hstep : (run b f cs (runTimes k b f cs emptyLedger)).2 id =
          some (stepEntry b (f id) (runTimes k b f cs emptyLedger id)) := by
        rw [run_snd]
        exact runPass_mem (pending_cases_nodup hnd) hmemp _ _ _
      have hattE : attemptsOfEntry (runTimes k b f cs emptyLedger id) = k := by
        rw [← attemptsOf_eq]
        exact hatt
      rw [hfs] at hstep
      have hstep' : (run b f cs (runTimes k b f cs emptyLedger)).2 id =
          some ⟨if k + 1 < b then Status.pending else Status.failedExhausted,
            k + 1, some s, none⟩ := by
        rw [hstep]
        by_cases hlt : k + 1 < b <;> simp [stepEntry, hattE, hlt]
      constructor
      · rw [hrt]
        simp [statusOf, hstep']
      · rw [hrt]
        simp [attemptsOf, hstep']

/-- C6: with a Fetcher that raises a transient error on every attempt,
starting from a fresh ledger, a case reaches exactly `retry_budget`
recorded attempts when its status becomes failed-exhausted, and before that
it is pending with one attempt recorded per completed invocation. -/
theorem retry_budget_enforcement (b : Nat) (f : Fetcher) (cs : List CaseRecord) (id : CaseId)
    (hb : 1 ≤ b) (hf : ∀ j, ∃ s, f j = FetchResult.transientErr s)
    (hnd : (cs.map CaseRecord.id).Nodup) (hmem : id ∈ cs.map CaseRecord.id) :
    attemptsOf (runTimes b b f cs emptyLedger) id = b ∧
      statusOf (runTimes b b f cs emptyLedger) id = Status.failedExhausted ∧
      ∀ k < b, statusOf (runTimes k b f cs emptyLedger) id = Status.pending ∧
        attemptsOf (runTimes k b f cs emptyLedger) id = k := by
  obtain ⟨hstatb, hattb⟩ := retry_invariant b f cs id hb hf hnd hmem b (Nat.le_refl b)
  refine ⟨hattb, by rw [hstatb, if_neg (Nat.lt_irrefl b)], fun k hk => ?_⟩
  obtain ⟨hstat, hatt⟩ := retry_invariant b f cs id hb hf hnd hmem k (Nat.le_of_lt hk)
  exact ⟨by rw [hstat, if_pos hk], hatt⟩

/-- Witness for C6: budget 2, one case, always-transient Fetcher — after two
invocations the case is failed-exhausted with two attempts, after one it is
still pending. -/
theorem retry_budget_enforcement_witness :
    attemptsOf (runTimes 2 2 (fun _ => FetchResult.transientErr "x") [⟨7, "m", []⟩]
        emptyLedger) 7 = 2 ∧
      statusOf (runTimes 2 2 (fun _ => FetchResult.transientErr "x") [⟨7, "m", []⟩]
        emptyLedger) 7 = Status.failedExhausted ∧
      statusOf (runTimes 1 2 (fun _ => FetchResult.transientErr "x") [⟨7, "m", []⟩]
        emptyLedger) 7 = Status.pending :=
  ⟨(retry_budget_enforcement 2 (fun _ => FetchResult.transientErr "x") [⟨7, "m", []⟩] 7
      (by decide) (fun _ => ⟨"x", rfl⟩) (by decide) (by decide)).1,
    (retry_budget_enforcement 2 (fun _ => FetchResult.transientErr "x") [⟨7, "m", []⟩] 7
      (by decide) (fun _ => ⟨"x", rfl⟩) (by decide) (by decide)).2.1,
    ((retry_budget_enforcement 2 (fun _ => FetchResult.transientErr "x") [⟨7, "m", []⟩] 7
      (by decide) (fun _ => ⟨"x", rfl⟩) (by decide) (by decide)).2.2 1 (by decide)).1⟩

/-!
Claim theorems for the Legal Reference Parser.
-/

/-- C4: `parse` is total and always returns a result for every string; on a
string in which the tokenizer recognizes none of the citation patterns it
returns exactly one ParsedReference with all structured fields null and the
original raw text preserved. -/
theorem parse_totality (s : String) :
    parse s ≠ [] ∧ (tokenize s.toList = [] → parse s = [nullRef s]) := by
  constructor
  · unfold parse
    cases emitRefs s none (tokenize s.toList) <;> simp
  · intro h
    unfold parse
    rw [h]
    rfl

/-- Witness for C4: the empty string and a pure-whitespace string match no
pattern and yield a single all-null reference preserving the text. -/
theorem parse_totality_witness :
    parse "" ≠ [] ∧ parse "  " = [nullRef "  "] :=
  ⟨(parse_totality "").1, (parse_totality "  ").2 rfl⟩

/-- C5: parsing `"act 89/2012 §15; §16"` yields exactly two
ParsedReferences, both with act number 89 and act year 2012, with section
numbers 15 and 16 — the bare `§16` inherits the act identity of the nearest
preceding act reference in the same raw string. -/
theorem implicit_antecedent :
    parse "act 89/2012 §15; §16" =
      [⟨some 89, some 2012, none, some 15, none, none, false, "act 89/2012 §15; §16"⟩,
        ⟨some 89, some 2012, none, some 16, none, none, false, "act 89/2012 §15; §16"⟩] := by
  decide

/-!
Claim theorems for the notebook helpers.
-/

/-- `flatten` agrees with list concatenation of all sublists. -/
theorem flatten_eq {α : Type _} (xss : List (List α)) : flatten xss = xss.flatten := by
  induction xss with
  | nil => rfl
  | cons xs rest ih => simp [flatten, ih]

/-- Folding record accumulation over the files equals the concatenation of
each file's contribution. -/
theorem load_foldl (files : List FileLoad) (acc : List Nat) :
    files.foldl (fun records f => records ++ fileRecords f) acc =
      acc ++ flatten (files.map fileRecords) := by
  induction files generalizing acc with
  | nil => simp [flatten]
  | cons f rest ih => simp [flatten, ih]

/-- C9: `load_all_decisions` assembles exactly the "items" arrays of the
files that parse successfully, in file order; a file that fails to open or
parse contributes nothing instead of aborting the load, and a parsed file
without an "items" key contributes zero records. -/
theorem load_all_decisions_spec (files : List FileLoad) :
    load_all_decisions files = flatten (files.map fileRecords) ∧
      (∀ m, fileRecords (FileLoad.loadFail m) = []) ∧
      ∀ doc, doc.find? (fun p => p.1 = "items") = none →
        fileRecords (FileLoad.loadOk doc) = [] := by
  refine ⟨?_, fun _ => rfl, fun doc h => ?_⟩
  · unfold load_all_decisions
    rw [load_foldl]
    rfl
  · simp [fileRecords, itemsOf, h]

/-- Witness for C9: one unreadable file, one file without "items", one file
with two records — the load yields exactly those two records. -/
theorem load_all_decisions_witness :
    load_all_decisions
        [FileLoad.loadFail "e", FileLoad.loadOk [("other", [1])],
          FileLoad.loadOk [("items", [2, 3])]] =
      flatten
        ([FileLoad.loadFail "e", FileLoad.loadOk [("other", [1])],
            FileLoad.loadOk [("items", [2, 3])]].map fileRecords) ∧
      fileRecords (FileLoad.loadOk [("other", [1])]) = [] :=
  ⟨(load_all_decisions_spec
      [FileLoad.loadFail "e", FileLoad.loadOk [("other", [1])],
        FileLoad.loadOk [("items", [2, 3])]]).1,
    (load_all_decisions_spec [FileLoad.loadOk [("other", [1])]]).2.2 [("other", [1])]
      (by decide)⟩

/-- C10: `flatten` is the left-to-right concatenation of its sublists, and
`extract_unique_refs` is exactly the set of strings occurring in some row's
`zminenaUstanoveni` list. -/
theorem flatten_extract_spec :
    (∀ (xss : List (List Nat)), flatten xss = xss.flatten) ∧
      ∀ (df : List DecisionRow) (s : String),
        s ∈ extract_unique_refs df ↔ ∃ r ∈ df, s ∈ r.zminenaUstanoveni := by
  refine ⟨fun xss => flatten_eq xss, fun df s => ?_⟩
  simp [extract_unique_refs, flatten_eq, List.mem_flatten, List.mem_map]

end SOUDAI
